import Mathlib

/-!
Shallow embedding of the zone_out backend (src/main.go): the in-memory order
store with its four HTTP operations (list, create, hide, delete-by-id) and the
catalog lister `serveImagesFromFolder`.  Pure state-passing replaces the global
mutable `orders` slice and `nextOrderID` counter; every handler takes the store
and returns the new store together with the HTTP status code it writes.
-/

namespace ZoneOut

/-- Catalog product record (`Product` in main.go). -/
structure Product where
  id : Int
  url : String
deriving DecidableEq

/-- Stored order (`Order` in main.go).  `items` models a Go slice value:
`none` is the nil slice (rendered as JSON `null`), `some l` a non-nil slice.
`createdAt` is an abstract server timestamp. -/
structure Order where
  id : Int
  username : String
  items : Option (List Product)
  createdAt : Int
  hidden : Bool
deriving DecidableEq

/-- The shared mutable state of main.go: the `orders` slice plus the
`nextOrderID` counter. -/
structure Store where
  orders : List Order
  nextOrderID : Int
deriving DecidableEq

/-- Initial state: `orders = []Order{}`, `nextOrderID = 1`. -/
def initialStore : Store := { orders := [], nextOrderID := 1 }

/-- Go `unicode.IsSpace`: the Unicode White_Space code points. -/
def goIsSpace (c : Char) : Bool :=
  let n := c.toNat
  (9 ≤ n && n ≤ 13) || n == 32 || n == 0x85 || n == 0xA0 || n == 0x1680 ||
    (0x2000 ≤ n && n ≤ 0x200A) || n == 0x2028 || n == 0x2029 || n == 0x202F ||
    n == 0x205F || n == 0x3000

/-- Go `strings.TrimSpace` on the character list of a string: drop leading and
trailing white space. -/
def goTrimSpace (s : List Char) : List Char :=
  ((s.dropWhile goIsSpace).reverse.dropWhile goIsSpace).reverse

/-- Digit loop of Go `strconv.ParseUint` in base 10: consumes the whole list,
failing on any non-digit character. -/
def parseDigitsAux : List Char → Nat → Option Nat
  | [], acc => some acc
  | c :: rest, acc =>
    if 48 ≤ c.toNat && c.toNat ≤ 57 then
      parseDigitsAux rest (acc * 10 + (c.toNat - 48))
    else none

/-- Go `strconv.Atoi` on a 64-bit `int`: the parsed value together with an ok
flag (`false` models `err != nil`).  Syntax errors (empty string, bare sign,
any non-digit) yield `(0, false)`; a syntactically valid number out of the
`int64` range yields the saturated bound together with `false`, exactly as
`strconv.ParseInt` does on `ErrRange`. -/
def goAtoi (s : String) : Int × Bool :=
  match s.data with
  | [] => (0, false)
  | c :: rest =>
    let neg := c == '-'
    let ds := if c == '+' || c == '-' then rest else c :: rest
    match ds with
    | [] => (0, false)
    | _ :: _ =>
      match parseDigitsAux ds 0 with
      | none => (0, false)
      | some n =>
        if neg then
          if (n : Int) ≤ 2 ^ 63 then (-(n : Int), true) else (-(2 ^ 63), false)
        else
          if (n : Int) < 2 ^ 63 then ((n : Int), true) else (2 ^ 63 - 1, false)

/-- The strings `strconv.Atoi` accepts syntactically: an optional sign followed
by at least one decimal digit (the value may still be out of range). -/
def intShaped (s : String) : Bool :=
  match s.data with
  | [] => false
  | c :: rest =>
    let ds := if c == '+' || c == '-' then rest else c :: rest
    !ds.isEmpty && ds.all (fun d => 48 ≤ d.toNat && d.toNat ≤ 57)

/-- The scan of `hideOrderHandler`: set `Hidden = true` on the first order
whose id matches, then break. -/
def hideFirst (id : Int) : List Order → List Order
  | [] => []
  | o :: rest =>
    if o.id = id then { o with hidden := true } :: rest
    else o :: hideFirst id rest

/-- Handler `hideOrderHandler`: the `id` query parameter is parsed with `Atoi`
and the error discarded (`id, _ := strconv.Atoi(idStr)`); always responds 200. -/
def hideOrderHandler (idStr : String) (st : Store) : Store × Int :=
  let id := (goAtoi idStr).1
  ({ st with orders := hideFirst id st.orders }, 200)

/-- The GET branch filter of `ordersHandler`: admin sees everything, anyone
else sees exactly their own non-hidden orders. -/
def listFilterPred (username : String) (o : Order) : Bool :=
  username == "admin" || (o.username == username && !o.hidden)

/-- The orders the GET branch selects, in storage order. -/
def listFilter (username : String) (os : List Order) : List Order :=
  os.filter (listFilterPred username)

/-- Go `append` on a possibly-nil slice: appending to nil allocates. -/
def goAppend {α : Type} (s : Option (List α)) (x : α) : Option (List α) :=
  match s with
  | none => some [x]
  | some l => some (l ++ [x])

/-- One iteration of the GET accumulation loop of `ordersHandler`. -/
def getStep (username : String) (acc : Option (List Order)) (o : Order) :
    Option (List Order) :=
  if username == "admin" then goAppend acc o
  else if o.username == username && !o.hidden then goAppend acc o
  else acc

/-- The GET accumulation loop (`var result []Order` starts as the nil slice). -/
def getLoop (username : String) (os : List Order) (acc : Option (List Order)) :
    Option (List Order) :=
  os.foldl (getStep username) acc

/-- The per-order `Items` nil-fix applied to each element of the GET result. -/
def normalizeOrder (o : Order) : Order :=
  if o.items.isNone then { o with items := some [] } else o

/-- GET branch of `ordersHandler`: build `result`, replace a nil result with
the empty slice, replace nil `Items` with empty slices.  The outer `Option` is
the slice nil-ness the JSON encoder would render as `null`. -/
def getOrdersResult (username : String) (os : List Order) : Option (List Order) :=
  let result := getLoop username os none
  let result :=
    match result with
    | none => some ([] : List Order)
    | some l => some l
  result.map (fun l => l.map normalizeOrder)

/-- POST branch of `ordersHandler`: validate the username, fix a nil `Items`,
assign the next id and the server timestamp, append.  Returns the store, the
HTTP status, and the response order (the stored one) when created. -/
def postOrders (now : Int) (st : Store) (incoming : Order) :
    Store × Int × Option Order :=
  if goTrimSpace incoming.username.data = [] then (st, 400, none)
  else
    let fixed :=
      if incoming.items.isNone then { incoming with items := some [] } else incoming
    let stored := { fixed with id := st.nextOrderID, createdAt := now }
    ({ orders := st.orders ++ [stored], nextOrderID := st.nextOrderID + 1 },
      201, some stored)

/-- The removal scan of `orderByIDHandler`: index of the first match, then the
splice `append(orders[:idx], orders[idx+1:]...)`.  `none` models `idx == -1`. -/
def removeFirst (id : Int) : List Order → Option (List Order)
  | [] => none
  | o :: rest =>
    if o.id = id then some rest
    else (removeFirst id rest).map (o :: ·)

/-- Handler `orderByIDHandler` on DELETE: 400 when `Atoi` fails, 404 when no
order has the id (store untouched), otherwise remove the first match, 204. -/
def deleteOrderHandler (idStr : String) (st : Store) : Store × Int :=
  match goAtoi idStr with
  | (_, false) => (st, 400)
  | (id, true) =>
    match removeFirst id st.orders with
    | none => (st, 404)
    | some os => ({ st with orders := os }, 204)

/-- Modelled from the spec: the bulk `DeleteByUsername` endpoint of spec
sections 4.2 and 6 is absent from the sources under src/.  Per the spec's
words: removes every order whose `username` exactly matches the given value,
responds 400 when the username parameter is empty, 200 otherwise (zero matches
succeed trivially). -/
def deleteByUsername (username : String) (st : Store) : Store × Int :=
  if username = "" then (st, 400)
  else ({ st with orders := st.orders.filter (fun o => !(o.username == username)) }, 200)

/-- One client request against the order store. -/
inductive Op where
  | create (now : Int) (incoming : Order)
  | hide (idStr : String)
  | delete (idStr : String)
  | list (username : String)
deriving DecidableEq

/-- Store transition of one request (the GET branch does not modify it). -/
def applyOp (st : Store) : Op → Store
  | .create now incoming => (postOrders now st incoming).1
  | .hide idStr => (hideOrderHandler idStr st).1
  | .delete idStr => (deleteOrderHandler idStr st).1
  | .list _ => st

/-- Run a trace of requests from a starting store. -/
def runOps (st : Store) : List Op → Store
  | [] => st
  | op :: rest => runOps (applyOp st op) rest

/-- Ids assigned by the successful Create calls of a trace, in call order,
read off the handler's response. -/
def createdIds (st : Store) : List Op → List Int
  | [] => []
  | op :: rest =>
    match op with
    | .create now incoming =>
      match (postOrders now st incoming).2.2 with
      | some o => o.id :: createdIds (applyOp st op) rest
      | none => createdIds (applyOp st op) rest
    | _ => createdIds (applyOp st op) rest

/-- Number of Create calls of a trace that pass username validation. -/
def succCreateCount : List Op → Nat
  | [] => 0
  | .create _ incoming :: rest =>
    (if goTrimSpace incoming.username.data = [] then 0 else 1) + succCreateCount rest
  | _ :: rest => succCreateCount rest

/-- The base URL hard-coded in `serveImagesFromFolder`. -/
def baseURL : String := "https://zone-out-backend-server.onrender.com"

/-- A directory entry as returned by `os.ReadDir`. -/
structure DirEntry where
  name : String
  isDir : Bool
deriving DecidableEq

/-- The product-building loop of `serveImagesFromFolder`, with its running
`id` counter: one product per non-directory entry, URL by concatenation. -/
def serveImagesLoop (route : String) : List DirEntry → Int → List Product
  | [], _ => []
  | f :: rest, id =>
    if !f.isDir then
      { id := id, url := baseURL ++ "/images/" ++ route ++ "/" ++ f.name } ::
        serveImagesLoop route rest (id + 1)
    else serveImagesLoop route rest id

/-- Handler `serveImagesFromFolder` applied to the entries of a readable
directory: ids start at 1. -/
def serveImagesFromFolder (route : String) (files : List DirEntry) : List Product :=
  serveImagesLoop route files 1

/-- Modelled from the spec's words (section 4.1), for comparison with
`serveImagesFromFolder`: the reserved URL characters of RFC 3986. -/
def isReservedURLChar (c : Char) : Bool :=
  ([':', '/', '?', '#', '[', ']', '@', '!', '$', '&', '(', ')', '*', '+',
    ',', ';', '='] : List Char).contains c

/-- Upper-case hexadecimal digit of a value below 16. -/
def hexDigit (n : Nat) : Char :=
  if n < 10 then Char.ofNat (48 + n) else Char.ofNat (55 + n)

/-- Modelled from the spec's words (section 4.1): percent-encode the reserved
URL characters of a file name. -/
def percentEncode (s : String) : String :=
  s.data.foldl
    (fun acc c =>
      if isReservedURLChar c then
        acc ++ String.mk ['%', hexDigit (c.toNat / 16), hexDigit (c.toNat % 16)]
      else acc.push c)
    ""

/-- Modelled from the spec's words (section 4.1): the URL the spec prescribes
for a catalog file, with the file name percent-encoded. -/
def specProductURL (route fileName : String) : String :=
  baseURL ++ "/images/" ++ route ++ "/" ++ percentEncode fileName

/-- All order ids in the store are at least 1 and below the counter. -/
def idsPositive (st : Store) : Prop :=
  (∀ o ∈ st.orders, 1 ≤ o.id) ∧ 1 ≤ st.nextOrderID

/-- A sample stored order, used to instantiate witnesses. -/
def sampleOrder : Order :=
  { id := 1, username := "alice", items := some [], createdAt := 0, hidden := false }

/-- A sample incoming order for Create calls, used to instantiate witnesses. -/
def sampleIncoming : Order :=
  { id := 0, username := "bob", items := none, createdAt := 0, hidden := false }

theorem range_shift (n : Nat) (x : Int) :
    (List.range (n + 1)).map (fun k : Nat => x + (k : Int)) =
      x :: (List.range n).map (fun k : Nat => (x + 1) + (k : Int)) := by
  rw [List.range_succ_eq_map, List.map_cons, List.map_map]
  simp only [Nat.cast_zero, add_zero]
  refine congrArg (List.cons x) (List.map_congr_left fun k _ => ?_)
  simp only [Function.comp_apply, Nat.cast_succ]
  ring

theorem hideFirst_no_match (id : Int) (os : List Order)
    (h : ∀ o ∈ os, o.id ≠ id) : hideFirst id os = os := by
  induction os with
  | nil => rfl
  | cons o rest ih =>
    have ho : o.id ≠ id := h o (by simp)
    simp [hideFirst, ho, ih fun p hp => h p (by simp [hp])]

theorem hideFirst_first_match (id : Int) (pre : List Order) (o : Order)
    (post : List Order) (ho : o.id = id) (hpre : ∀ p ∈ pre, p.id ≠ id) :
    hideFirst id (pre ++ o :: post) = pre ++ { o with hidden := true } :: post := by
  induction pre with
  | nil => simp [hideFirst, ho]
  | cons p rest ih =>
    have hp : p.id ≠ id := hpre p (by simp)
    simp [hideFirst, hp, ih fun q hq => hpre q (by simp [hq])]

theorem hideFirst_idem (id : Int) (os : List Order) :
    hideFirst id (hideFirst id os) = hideFirst id os := by
  induction os with
  | nil => rfl
  | cons o rest ih =>
    by_cases h : o.id = id
    · simp [hideFirst, h]
    · simp [hideFirst, h, ih]

theorem removeFirst_eq_none (id : Int) (os : List Order)
    (h : ∀ o ∈ os, o.id ≠ id) : removeFirst id os = none := by
  induction os with
  | nil => rfl
  | cons o rest ih =>
    have ho : o.id ≠ id := h o (by simp)
    simp [removeFirst, ho, ih fun p hp => h p (by simp [hp])]

theorem removeFirst_first_match (id : Int) (pre : List Order) (o : Order)
    (post : List Order) (ho : o.id = id) (hpre : ∀ p ∈ pre, p.id ≠ id) :
    removeFirst id (pre ++ o :: post) = some (pre ++ post) := by
  induction pre with
  | nil => simp [removeFirst, ho]
  | cons p rest ih =>
    have hp : p.id ≠ id := hpre p (by simp)
    simp [removeFirst, hp, ih fun q hq => hpre q (by simp [hq])]

theorem goTrimSpace_of_all_space (s : List Char) (h : s.all goIsSpace = true) :
    goTrimSpace s = [] := by
  have hd : s.dropWhile goIsSpace = [] := by
    induction s with
    | nil => rfl
    | cons c rest ih =>
      simp only [List.all_cons, Bool.and_eq_true] at h
      simp [List.dropWhile_cons, h.1, ih h.2]
  simp [goTrimSpace, hd]

/-- C8: `Hide(id)` sets `hidden = true` on the first order matching `id` when
one is present; when no stored order has that id the store is unchanged; in
both cases the handler responds 200, never an error. -/
theorem hide_silent_success (idStr : String) (st : Store) :
    (hideOrderHandler idStr st).2 = 200
    ∧ ((∀ o ∈ st.orders, o.id ≠ (goAtoi idStr).1) → (hideOrderHandler idStr st).1 = st)
    ∧ (∀ pre o post, st.orders = pre ++ o :: post → o.id = (goAtoi idStr).1 →
        (∀ p ∈ pre, p.id ≠ (goAtoi idStr).1) →
        (hideOrderHandler idStr st).1 =
          { st with orders := pre ++ { o with hidden := true } :: post }) := by
  refine ⟨rfl, fun h => ?_, fun pre o post hsplit ho hpre => ?_⟩
  · simp [hideOrderHandler, hideFirst_no_match _ _ h]
  · simp [hideOrderHandler, hsplit, hideFirst_first_match _ pre o post ho hpre]

/-- Witness for C8 at a concrete store and request. -/
theorem hide_silent_success_witness :
    (hideOrderHandler "1" { orders := [sampleOrder], nextOrderID := 2 }).2 = 200
    ∧ (hideOrderHandler "1" { orders := [sampleOrder], nextOrderID := 2 }).1 =
        { orders := [{ sampleOrder with hidden := true }], nextOrderID := 2 } :=
  ⟨(hide_silent_success "1" _).1,
    (hide_silent_success "1" { orders := [sampleOrder], nextOrderID := 2 }).2.2
      [] sampleOrder [] rfl (by decide) (by simp)⟩

/-- C9: hiding the same id twice leaves exactly the state one hide produces,
for every id string and every starting store. -/
theorem hide_idempotent (idStr : String) (st : Store) :
    hideOrderHandler idStr (hideOrderHandler idStr st).1 = hideOrderHandler idStr st := by
  simp [hideOrderHandler, hideFirst_idem]

/-- Witness for C9 at a concrete store and request. -/
theorem hide_idempotent_witness :
    hideOrderHandler "1" (hideOrderHandler "1" { orders := [sampleOrder], nextOrderID := 2 }).1 =
      hideOrderHandler "1" { orders := [sampleOrder], nextOrderID := 2 } :=
  hide_idempotent "1" { orders := [sampleOrder], nextOrderID := 2 }

theorem getStep_eq (u : String) (acc : Option (List Order)) (o : Order) :
    getStep u acc o = if listFilterPred u o then goAppend acc o else acc := by
  unfold getStep listFilterPred
  by_cases h : (u == "admin") = true <;> simp [h]

theorem getLoop_some (u : String) (os : List Order) :
    ∀ l : List Order, getLoop u os (some l) = some (l ++ listFilter u os) := by
  induction os with
  | nil => intro l; simp [getLoop, listFilter]
  | cons o rest ih =>
    intro l
    rw [getLoop, List.foldl_cons, getStep_eq]
    by_cases h : listFilterPred u o
    · simp only [h, if_pos, goAppend]
      rw [show List.foldl (getStep u) (some (l ++ [o])) rest = getLoop u rest (some (l ++ [o])) from rfl,
        ih (l ++ [o])]
      simp [listFilter, List.filter_cons, h]
    · rw [if_neg h,
        show List.foldl (getStep u) (some l) rest = getLoop u rest (some l) from rfl, ih l]
      simp [listFilter, List.filter_cons, h]

theorem getLoop_none (u : String) (os : List Order) :
    getLoop u os none =
      if listFilter u os = [] then none else some (listFilter u os) := by
  induction os with
  | nil => simp [getLoop, listFilter]
  | cons o rest ih =>
    rw [getLoop, List.foldl_cons, getStep_eq]
    by_cases h : listFilterPred u o
    · simp only [h, if_pos, goAppend]
      rw [show List.foldl (getStep u) (some [o]) rest = getLoop u rest (some [o]) from rfl,
        getLoop_some]
      simp [listFilter, List.filter_cons, h]
    · rw [if_neg h,
        show List.foldl (getStep u) none rest = getLoop u rest none from rfl, ih]
      simp [listFilter, List.filter_cons, h]

theorem getOrdersResult_eq (u : String) (os : List Order) :
    getOrdersResult u os = some ((listFilter u os).map normalizeOrder) := by
  unfold getOrdersResult
  rw [getLoop_none]
  by_cases h : listFilter u os = [] <;> simp [h]

/-- C2: the GET result is the stored sequence filtered (then items-fixed), and
membership in the filtered sequence is: for admin, exactly the stored orders;
for a non-admin username, exactly that user's non-hidden orders. -/
theorem list_visibility (u : String) (os : List Order) (O : Order) :
    getOrdersResult u os = some ((listFilter u os).map normalizeOrder)
    ∧ (O ∈ listFilter "admin" os ↔ O ∈ os)
    ∧ (u ≠ "admin" → O ∈ os →
        (O ∈ listFilter u os ↔ O.username = u ∧ O.hidden = false)) := by
  refine ⟨getOrdersResult_eq u os, ?_, fun hu hO => ?_⟩
  · simp [listFilter, List.mem_filter, listFilterPred]
  · have hb : (u == "admin") = false := by simpa using hu
    simp [listFilter, List.mem_filter, listFilterPred, hb, hO,
      Bool.and_eq_true, Bool.not_eq_true']

/-- Witness for C2 at a concrete store and usernames. -/
theorem list_visibility_witness :
    getOrdersResult "alice" [sampleOrder] = some [sampleOrder]
    ∧ (sampleOrder ∈ listFilter "admin" [sampleOrder] ↔ sampleOrder ∈ [sampleOrder])
    ∧ (sampleOrder ∈ listFilter "alice" [sampleOrder] ↔
        sampleOrder.username = "alice" ∧ sampleOrder.hidden = false) := by
  have h := list_visibility "alice" [sampleOrder] sampleOrder
  exact ⟨by rw [h.1]; decide, h.2.1, h.2.2 (by decide) (by decide)⟩

/-- C3: the GET response is never the nil slice and every order it carries has
a non-nil items slice (empty when none matched or none were submitted); an
order created from a request without items is stored with an empty items
slice, not a nil one. -/
theorem list_create_items_not_nil (u : String) (os : List Order) (now : Int)
    (st : Store) (incoming : Order) :
    (getOrdersResult u os).isSome = true
    ∧ (∀ O ∈ (getOrdersResult u os).getD [], O.items.isSome = true)
    ∧ (listFilter u os = [] → getOrdersResult u os = some [])
    ∧ (incoming.items = none → goTrimSpace incoming.username.data ≠ [] →
        (postOrders now st incoming).1.orders =
          st.orders ++
            [{ incoming with items := some [], id := st.nextOrderID, createdAt := now }]) := by
  refine ⟨?_, ?_, fun h => ?_, fun hi hu => ?_⟩
  · rw [getOrdersResult_eq]; rfl
  · intro O hO
    rw [getOrdersResult_eq] at hO
    simp only [Option.getD_some, List.mem_map] at hO
    obtain ⟨O', _, rfl⟩ := hO
    unfold normalizeOrder
    by_cases h : O'.items.isNone = true
    · simp [h]
    · rw [if_neg h, Option.isSome_iff_ne_none]
      exact fun hn => h (by simp [hn])
  · rw [getOrdersResult_eq, h]; rfl
  · unfold postOrders
    rw [if_neg hu]
    simp [hi]

/-- Witness for C3 at a concrete store and request. -/
theorem list_create_items_not_nil_witness :
    (getOrdersResult "bob" []).isSome = true
    ∧ getOrdersResult "bob" [] = some []
    ∧ (postOrders 0 initialStore sampleIncoming).1.orders =
        [{ sampleIncoming with items := some [], id := 1, createdAt := 0 }] := by
  have h := list_create_items_not_nil "bob" [] 0 initialStore sampleIncoming
  exact ⟨h.1, h.2.2.1 (by decide), h.2.2.2 rfl (by decide)⟩

/-- C4: on DELETE, when no stored order has the requested id the handler
responds 404 and the store is unchanged; otherwise it removes exactly the
first order whose id matches, keeps the rest in their relative order, and
responds 204. -/
theorem delete_first_match (idStr : String) (id : Int) (st : Store)
    (hp : goAtoi idStr = (id, true)) :
    ((∀ o ∈ st.orders, o.id ≠ id) → deleteOrderHandler idStr st = (st, 404))
    ∧ ∀ pre o post, st.orders = pre ++ o :: post → o.id = id →
        (∀ p ∈ pre, p.id ≠ id) →
        deleteOrderHandler idStr st = ({ st with orders := pre ++ post }, 204) := by
  constructor
  · intro h
    simp [deleteOrderHandler, hp, removeFirst_eq_none id st.orders h]
  · intro pre o post hsplit ho hpre
    simp [deleteOrderHandler, hp, hsplit, removeFirst_first_match id pre o post ho hpre]

/-- Witness for C4 at a concrete store: a missing id yields 404 with the store
unchanged, a present id removes exactly that order with a 204. -/
theorem delete_first_match_witness :
    deleteOrderHandler "2" { orders := [sampleOrder], nextOrderID := 2 } =
        ({ orders := [sampleOrder], nextOrderID := 2 }, 404)
    ∧ deleteOrderHandler "1" { orders := [sampleOrder], nextOrderID := 2 } =
        ({ orders := [], nextOrderID := 2 }, 204) :=
  ⟨(delete_first_match "2" 2 { orders := [sampleOrder], nextOrderID := 2 }
      (by decide)).1 (by decide),
    (delete_first_match "1" 1 { orders := [sampleOrder], nextOrderID := 2 }
      (by decide)).2 [] sampleOrder [] rfl (by decide) (by simp)⟩

/-- C5: Create rejects with a 400 any order whose username consists only of
white space (the empty username included), and then returns the store exactly
as it was, with no response order. -/
theorem create_rejects_blank_username (now : Int) (st : Store) (incoming : Order)
    (h : incoming.username.data.all goIsSpace = true) :
    postOrders now st incoming = (st, 400, none) := by
  unfold postOrders
  rw [if_pos (goTrimSpace_of_all_space _ h)]

/-- Witness for C5: a two-space username is rejected and the store is kept. -/
theorem create_rejects_blank_username_witness :
    postOrders 0 initialStore { sampleIncoming with username := "  " } =
      (initialStore, 400, none) :=
  create_rejects_blank_username 0 initialStore
    { sampleIncoming with username := "  " } (by decide)

/-- C6 (spec-modelled): `DeleteByUsername` rejects an empty username with 400
leaving the store unchanged; a non-empty username always succeeds with 200,
the surviving orders are exactly those whose username differs, and with zero
matches the store is returned unchanged. -/
theorem deleteByUsername_spec (u : String) (st : Store) (O : Order) :
    (u = "" → deleteByUsername u st = (st, 400))
    ∧ (u ≠ "" →
        (deleteByUsername u st).2 = 200
        ∧ (O ∈ (deleteByUsername u st).1.orders ↔ O ∈ st.orders ∧ O.username ≠ u)
        ∧ ((∀ o ∈ st.orders, o.username ≠ u) → deleteByUsername u st = (st, 200))) := by
  constructor
  · intro h
    simp [deleteByUsername, h]
  · intro h
    refine ⟨by simp [deleteByUsername, h], ?_, fun hz => ?_⟩
    · simp [deleteByUsername, h, List.mem_filter]
    · have : st.orders.filter (fun o => !(o.username == u)) = st.orders :=
        List.filter_eq_self.mpr fun o ho => by simpa using hz o ho
      simp [deleteByUsername, h, this]

/-- Witness for C6 at a concrete store and usernames. -/
theorem deleteByUsername_spec_witness :
    deleteByUsername "" { orders := [sampleOrder], nextOrderID := 2 } =
        ({ orders := [sampleOrder], nextOrderID := 2 }, 400)
    ∧ deleteByUsername "bob" { orders := [sampleOrder], nextOrderID := 2 } =
        ({ orders := [sampleOrder], nextOrderID := 2 }, 200)
    ∧ (sampleOrder ∈
        (deleteByUsername "alice" { orders := [sampleOrder], nextOrderID := 2 }).1.orders ↔
        sampleOrder ∈ [sampleOrder] ∧ sampleOrder.username ≠ "alice") :=
  ⟨(deleteByUsername_spec "" { orders := [sampleOrder], nextOrderID := 2 } sampleOrder).1 rfl,
    ((deleteByUsername_spec "bob" { orders := [sampleOrder], nextOrderID := 2 } sampleOrder).2
      (by decide)).2.2 (by decide),
    ((deleteByUsername_spec "alice" { orders := [sampleOrder], nextOrderID := 2 } sampleOrder).2
      (by decide)).2.1⟩

theorem deleteOrderHandler_nextOrderID (idStr : String) (st : Store) :
    ((deleteOrderHandler idStr st).1).nextOrderID = st.nextOrderID := by
  unfold deleteOrderHandler
  split
  · rfl
  · split <;> rfl

theorem createdIds_eq (ops : List Op) : ∀ st : Store,
    createdIds st ops =
      (List.range (succCreateCount ops)).map
        (fun k : Nat => st.nextOrderID + (k : Int)) := by
  induction ops with
  | nil => intro st; simp [createdIds, succCreateCount]
  | cons op rest ih =>
    intro st
    cases op with
    | create now incoming =>
      by_cases h : goTrimSpace incoming.username.data = []
      · simp only [createdIds, applyOp, postOrders, if_pos h]
        rw [ih]
        simp [succCreateCount, h]
      · simp only [createdIds, applyOp, postOrders, if_neg h]
        rw [ih]
        have hc : succCreateCount (Op.create now incoming :: rest) =
            succCreateCount rest + 1 := by
          simp [succCreateCount, h, Nat.add_comm]
        rw [hc, range_shift]
    | hide idStr =>
      simp only [createdIds, applyOp]
      rw [ih]
      simp [succCreateCount, hideOrderHandler]
    | delete idStr =>
      simp only [createdIds, applyOp]
      rw [ih]
      simp [succCreateCount, deleteOrderHandler_nextOrderID]
    | list u =>
      simp only [createdIds, applyOp]
      rw [ih]
      simp [succCreateCount]

/-- C1: along any trace of requests from the initial store, the ids assigned
by the successful Create calls are exactly 1, 2, ..., N in call order, however
the creates are interleaved with Hide, Delete and List requests; in
particular the ids are unique, strictly increasing in creation order, and an
id freed by Delete is never assigned again. -/
theorem create_ids_one_to_n (ops : List Op) :
    createdIds initialStore ops =
      (List.range (succCreateCount ops)).map (fun k : Nat => 1 + (k : Int)) :=
  createdIds_eq ops initialStore

/-- Witness for C1 on a concrete trace interleaving creates with hide and
delete: the two successful creates receive ids 1 and 2. -/
theorem create_ids_one_to_n_witness :
    createdIds initialStore
        [Op.create 0 sampleIncoming, Op.hide "1", Op.delete "1",
          Op.create 0 sampleIncoming] = [1, 2] := by
  have h := create_ids_one_to_n
    [Op.create 0 sampleIncoming, Op.hide "1", Op.delete "1",
      Op.create 0 sampleIncoming]
  exact h.trans (by decide)

theorem parseDigitsAux_not_all_digits (ds : List Char) :
    ∀ acc : Nat, ds.all (fun d => 48 ≤ d.toNat && d.toNat ≤ 57) = false →
      parseDigitsAux ds acc = none := by
  induction ds with
  | nil => intro acc h; simp at h
  | cons c rest ih =>
    intro acc h
    rw [List.all_cons] at h
    by_cases hc : (48 ≤ c.toNat && c.toNat ≤ 57) = true
    · rw [hc, Bool.true_and] at h
      simp [parseDigitsAux, hc, ih _ h]
    · have hc' : (48 ≤ c.toNat && c.toNat ≤ 57) = false := by
        simpa using hc
      simp [parseDigitsAux, hc']

theorem goAtoi_not_intShaped (s : String) (h : intShaped s = false) :
    goAtoi s = (0, false) := by
  unfold goAtoi
  unfold intShaped at h
  rcases hd : s.data with _ | ⟨c, rest⟩
  · rfl
  · rw [hd] at h
    by_cases hs : (c == '+' || c == '-') = true
    · cases rest with
      | nil => simp [hs]
      | cons r rs =>
        have hall : (r :: rs).all (fun d => 48 ≤ d.toNat && d.toNat ≤ 57) = false := by
          simpa [hs] using h
        simp [hs, parseDigitsAux_not_all_digits _ _ hall]
    · have hs' : (c == '+' || c == '-') = false := by simpa using hs
      have hall : (c :: rest).all (fun d => 48 ≤ d.toNat && d.toNat ≤ 57) = false := by
        simpa [hs'] using h
      simp [hs', parseDigitsAux_not_all_digits _ _ hall]

theorem hideFirst_ids (id : Int) (os : List Order) (h : ∀ o ∈ os, 1 ≤ o.id) :
    ∀ o ∈ hideFirst id os, 1 ≤ o.id := by
  induction os with
  | nil => simp [hideFirst]
  | cons o rest ih =>
    by_cases hc : o.id = id
    · simp only [hideFirst, if_pos hc]
      intro x hx
      rcases List.mem_cons.mp hx with rfl | hx
      · exact h o (by simp)
      · exact h x (by simp [hx])
    · simp only [hideFirst, if_neg hc]
      intro x hx
      rcases List.mem_cons.mp hx with rfl | hx
      · exact h x (by simp)
      · exact ih (fun p hp => h p (by simp [hp])) x hx

theorem removeFirst_subset (id : Int) (os : List Order) :
    ∀ os', removeFirst id os = some os' → ∀ o ∈ os', o ∈ os := by
  induction os with
  | nil => intro os' h; simp [removeFirst] at h
  | cons o rest ih =>
    intro os' h
    by_cases hc : o.id = id
    · simp only [removeFirst, if_pos hc, Option.some.injEq] at h
      subst h
      exact fun x hx => List.mem_cons_of_mem _ hx
    · simp only [removeFirst, if_neg hc, Option.map_eq_some'] at h
      obtain ⟨l', hl', rfl⟩ := h
      intro x hx
      rcases List.mem_cons.mp hx with rfl | hx
      · simp
      · exact List.mem_cons_of_mem _ (ih l' hl' x hx)

theorem idsPositive_applyOp (st : Store) (op : Op) (h : idsPositive st) :
    idsPositive (applyOp st op) := by
  obtain ⟨h1, h2⟩ := h
  cases op with
  | create now incoming =>
    by_cases hb : goTrimSpace incoming.username.data = []
    · simp only [applyOp, postOrders, if_pos hb]
      exact ⟨h1, h2⟩
    · simp only [applyOp, postOrders, if_neg hb]
      refine ⟨fun o ho => ?_, show (1 : Int) ≤ st.nextOrderID + 1 by omega⟩
      rcases List.mem_append.mp ho with ho | ho
      · exact h1 o ho
      · rcases List.mem_singleton.mp ho with rfl
        exact h2
  | hide idStr =>
    exact ⟨hideFirst_ids _ _ h1, h2⟩
  | delete idStr =>
    simp only [applyOp, deleteOrderHandler]
    rcases goAtoi idStr with ⟨id, b⟩
    cases b
    · exact ⟨h1, h2⟩
    · cases hR : removeFirst id st.orders with
      | none => simp only [hR]; exact ⟨h1, h2⟩
      | some os' =>
        simp only [hR]
        exact ⟨fun o ho => h1 o (removeFirst_subset id st.orders os' hR o ho), h2⟩
  | list u => exact ⟨h1, h2⟩

theorem idsPositive_runOps (ops : List Op) :
    ∀ st, idsPositive st → idsPositive (runOps st ops) := by
  induction ops with
  | nil => exact fun st h => h
  | cons op rest ih => exact fun st h => ih _ (idsPositive_applyOp st op h)

theorem idsPositive_initial : idsPositive initialStore :=
  ⟨by simp [initialStore], by simp [initialStore]⟩

/-- C10 counterexample: for the hide request id "99999999999999999999" the
parse fails (`Atoi` reports an error), yet the id is NOT treated as 0 — Go
returns the saturated `int64` bound alongside the range error. -/
theorem hide_bad_id_counterexample :
    (goAtoi "99999999999999999999").2 = false
    ∧ (goAtoi "99999999999999999999").1 ≠ 0 := by decide

/-- C10 (amended): for every hide request whose id parameter is absent or
syntactically not an integer, `Atoi` yields 0 with an error, the error is
discarded; since every order in a store reachable from the initial one has id
at least 1, no order matches: the store is unchanged and the handler still
responds 200. -/
theorem hide_bad_id_noop (s : String) (ops : List Op) (h : intShaped s = false) :
    goAtoi s = (0, false)
    ∧ hideOrderHandler s (runOps initialStore ops) = (runOps initialStore ops, 200) := by
  have hA := goAtoi_not_intShaped s h
  refine ⟨hA, ?_⟩
  have hinv := idsPositive_runOps ops initialStore idsPositive_initial
  unfold hideOrderHandler
  rw [hA]
  have hz : hideFirst ((0, false).1) (runOps initialStore ops).orders =
      (runOps initialStore ops).orders :=
    hideFirst_no_match 0 _ fun o ho => by have := hinv.1 o ho; omega
  simp [hz]

/-- Witness for C10 at the concrete malformed id "abc" after one create. -/
theorem hide_bad_id_noop_witness :
    intShaped "abc" = false
    ∧ goAtoi "abc" = (0, false)
    ∧ hideOrderHandler "abc" (runOps initialStore [Op.create 0 sampleIncoming]) =
        (runOps initialStore [Op.create 0 sampleIncoming], 200) := by
  have h := hide_bad_id_noop "abc" [Op.create 0 sampleIncoming] (by decide)
  exact ⟨by decide, h.1, h.2⟩

/-- C7 counterexample: for a directory holding the single regular file
"a#b.png" the catalog output differs from the spec's prescription, because the
code concatenates the raw file name while the spec requires the reserved
character to be percent-encoded. -/
theorem catalog_url_counterexample :
    serveImagesFromFolder "Stickers" [{ name := "a#b.png", isDir := false }] ≠
      [{ id := 1, url := specProductURL "Stickers" "a#b.png" }] := by decide

theorem serveImagesLoop_spec (route : String) (files : List DirEntry) :
    ∀ n : Int,
      (serveImagesLoop route files n).map Product.url =
        (files.filter (fun f => !f.isDir)).map
          (fun f => baseURL ++ "/images/" ++ route ++ "/" ++ f.name)
      ∧ (serveImagesLoop route files n).map Product.id =
        (List.range ((files.filter (fun f => !f.isDir)).length)).map
          (fun k : Nat => n + (k : Int)) := by
  induction files with
  | nil => intro n; simp [serveImagesLoop]
  | cons f rest ih =>
    intro n
    by_cases hf : f.isDir = true
    · simp only [serveImagesLoop, hf, Bool.not_true, Bool.false_eq_true, if_false,
        List.filter_cons, Bool.not_true]
      exact ih n
    · have hf' : f.isDir = false := by simpa using hf
      obtain ⟨ihu, ihi⟩ := ih (n + 1)
      simp only [serveImagesLoop, hf', Bool.not_false, if_true, List.filter_cons,
        List.map_cons, List.length_cons]
      exact ⟨by rw [ihu], by rw [ihi, range_shift]⟩

/-- C7 (amended): each catalog product's URL is the plain concatenation of the
hard-coded base URL, the fixed /images/ segment, the category name and the RAW
file name — no percent-encoding is applied — one product per regular file in
directory order, with ids 1, 2, ..., N. -/
theorem catalog_urls_raw_concat (route : String) (files : List DirEntry) :
    (serveImagesFromFolder route files).map Product.url =
      (files.filter (fun f => !f.isDir)).map
        (fun f => baseURL ++ "/images/" ++ route ++ "/" ++ f.name)
    ∧ (serveImagesFromFolder route files).map Product.id =
      (List.range ((files.filter (fun f => !f.isDir)).length)).map
        (fun k : Nat => 1 + (k : Int)) :=
  serveImagesLoop_spec route files 1

/-- Witness for C7 on a one-file directory. -/
theorem catalog_urls_raw_concat_witness :
    (serveImagesFromFolder "Stickers" [{ name := "a.png", isDir := false }]).map
        Product.url =
      ["https://zone-out-backend-server.onrender.com/images/Stickers/a.png"] := by
  have h := catalog_urls_raw_concat "Stickers" [{ name := "a.png", isDir := false }]
  exact h.1.trans (by decide)

end ZoneOut
